import Mathlib

/-!
Verification development for the NONScript calculator core (src/main.py).

The Python source is shallowly embedded below.  Modelling conventions:

* Numeric values are modelled as exact rationals.  Every numeric value
  appearing in the verified properties (small integers, simple decimal
  literals) is exactly representable both as an IEEE double and as a
  rational, and the arithmetic steps exercised by the properties are
  exact in both models.  Python float exponentiation is modelled for
  integral exponents (fractional exponents yield irrational numbers that
  have no rational counterpart and are not exercised by any property).
* Character classification (str.isalnum, str.isspace, float parsing)
  is modelled over the ASCII range; scientific notation and the textual
  inf/nan forms accepted by Python float are outside the modelled scope
  (no property exercises them).
* Python exceptions are modelled by an error sum: ValueError carries its
  message, list-index underflow is a distinct error, and possibly
  diverging loops are given fuel, with exhaustion a third distinct error.
  Mutation of the process-wide token list and variable dictionary is
  modelled by explicit state passing; an error carries the state at the
  moment it was raised, mirroring the mutations that persist when a
  Python exception propagates.
* The built-in gateway (populated from the host math library) is an
  external collaborator; it is modelled as an opaque name lookup
  returning a native callable that may fail, exactly as consulted by
  the core.
-/

namespace NONScript

/-! ### Python string primitives -/

/-- ASCII model of Python str.isspace for a single character. -/
def pyIsSpace (c : Char) : Bool :=
  c = ' ' || c = '\t' || c = '\n' || c = '\x0d' || c = '\x0b' || c = '\x0c'

/-- Membership in the punctuation set scanned by the tokenizer. -/
def pyPunct (c : Char) : Bool :=
  c = '(' || c = ')' || c = '+' || c = '-' || c = '*' ||
  c = '/' || c = '^' || c = ',' || c = '[' || c = ']'

/-- ASCII model of the character class accumulated into one token:
alphanumeric characters and the dot. -/
def pyAlnumDot (c : Char) : Bool :=
  c.isAlphanum || c = '.'

/-- Drop leading and trailing whitespace from a character list
(Python str.strip). -/
def pyStripList (l : List Char) : List Char :=
  ((l.dropWhile pyIsSpace).reverse.dropWhile pyIsSpace).reverse

/-- Python str.strip. -/
def pyStrip (s : String) : String :=
  String.mk (pyStripList s.data)

/-- Does the needle occur at the start of the haystack? -/
def startsWithList : List Char → List Char → Bool
  | _, [] => true
  | [], _ :: _ => false
  | a :: as, b :: bs => a = b && startsWithList as bs

/-- Python substring membership (the binary in operator on strings). -/
def hasSubList : List Char → List Char → Bool
  | l, sub =>
    startsWithList l sub ||
      match l with
      | [] => false
      | _ :: t => hasSubList t sub

/-- Python substring membership on strings. -/
def hasSubStr (s sub : String) : Bool :=
  hasSubList s.data sub.data

/-- Python s.split(sep, 1): the text before and after the first
occurrence of the separator, or none when the separator is absent. -/
def splitOnceList : List Char → List Char → Option (List Char × List Char)
  | l, sub =>
    if startsWithList l sub then some ([], l.drop sub.length)
    else
      match l with
      | [] => none
      | c :: t =>
        match splitOnceList t sub with
        | some (pre, post) => some (c :: pre, post)
        | none => none

/-- Python s.split(sep) for a single-character separator. -/
def splitAllList (sep : Char) : List Char → List (List Char)
  | [] => [[]]
  | c :: t =>
    if c = sep then [] :: splitAllList sep t
    else
      match splitAllList sep t with
      | [] => [[c]]
      | h :: r => (c :: h) :: r

/-- Python args_str.rstrip(closing-paren): drop every trailing
closing-parenthesis character. -/
def rstripParens (l : List Char) : List Char :=
  (l.reverse.dropWhile (fun c => c = ')')).reverse

/-! ### Tokenizer (src/main.py lines 107-123) -/

/-- The inner scan of tokenize: starting from index j, advance past the
run of alphanumeric-or-dot characters and return the first index past
the run.  The source loop increments j while it points at a character
of the class; the index it stops at is j plus the length of the
maximal in-class run starting at j. -/
def scanEnd (s : List Char) (j : Nat) : Nat :=
  j + ((s.drop j).takeWhile pyAlnumDot).length

/-- One-to-one embedding of the while loop of tokenize.  The loop is
given fuel because the source loop does not advance the index i when
the current character is neither punctuation, nor whitespace, nor in
the alphanumeric-or-dot class: the scan then appends an empty token and
re-examines the same character forever.  Exhausted fuel is none. -/
def tokenizeLoop (s : List Char) : Nat → Nat → List String → Option (List String)
  | 0, _, _ => none
  | fuel + 1, i, acc =>
    if h : i < s.length then
      let c := s.get ⟨i, h⟩
      if pyPunct c then tokenizeLoop s fuel (i + 1) (acc ++ [String.mk [c]])
      else if pyIsSpace c then tokenizeLoop s fuel (i + 1) acc
      else
        let j := scanEnd s i
        tokenizeLoop s fuel j (acc ++ [String.mk ((s.drop i).take (j - i))])
    else some acc

/-- Embedding of tokenize (src/main.py lines 107-123). -/
def tokenize (fuel : Nat) (s : String) : Option (List String) :=
  tokenizeLoop s.data fuel 0 []

/-! ### Data model -/

/-- Python exception model: ValueError with its message, IndexError from
popping or indexing an empty list, and fuel exhaustion for loops of the
source that need not terminate. -/
inductive Err where
  | value : String → Err
  | index : Err
  | fuel : Err
deriving DecidableEq

/-- The variable environment: an insertion-ordered mapping from names to
numbers, as a Python dict holds it. -/
abbrev Vars := List (String × ℚ)

/-- Python dict lookup. -/
def lookupVars : Vars → String → Option ℚ
  | [], _ => none
  | (k, v) :: t, n => if k = n then some v else lookupVars t n

/-- Python dict assignment: overwrite in place, append when new. -/
def setVar : Vars → String → ℚ → Vars
  | [], n, x => [(n, x)]
  | (k, v) :: t, n, x => if k = n then (k, x) :: t else (k, v) :: setVar t n x

/-- The mutable state shared by the recursive-descent evaluator: the
token list consumed destructively from the front, and the process-wide
variable environment. -/
structure St where
  toks : List String
  vars : Vars
deriving DecidableEq

/-- A stored user-defined procedure (the dict built by
parse_function_definition): parameter names, output names, raw body
lines. -/
structure FunctionDef where
  args : List String
  outputs : List String
  body : List String
deriving DecidableEq

/-- The user-function registry. -/
abbrev Funcs := List (String × FunctionDef)

/-- Registry lookup. -/
def lookupFn : Funcs → String → Option FunctionDef
  | [], _ => none
  | (k, f) :: t, n => if k = n then some f else lookupFn t n

/-- The built-in gateway: an opaque name-to-native-callable lookup; a
native call receives the evaluated argument list and either returns a
number or fails with a message. -/
abbrev Builtins := String → Option (List ℚ → Except String ℚ)

/-- Model of Python float exponentiation for integral exponents. -/
def pypow (a b : ℚ) : ℚ :=
  if b.den = 1 then a ^ b.num else 0

/-- Embedding of Python float(token) over the tokenizer's token
alphabet: a nonempty run of digits and at most one dot containing at
least one digit denotes the evident decimal rational; everything else
is rejected. -/
def parseFloat (s : String) : Option ℚ :=
  let ds := s.data
  if ds ≠ [] ∧ (∀ c ∈ ds, c.isDigit ∨ c = '.') ∧ ds.count '.' ≤ 1 ∧ ∃ c ∈ ds, c.isDigit then
    let mant : ℕ := (ds.filter (fun c => c != '.')).foldl (fun a c => a * 10 + (c.toNat - 48)) 0
    let fracLen := ((ds.dropWhile (fun c => c != '.')).drop 1).length
    some ((mant : ℚ) / (10 ^ fracLen : ℚ))
  else none

/-- Bind parameter names to argument values, in declared order, into a
cleared environment (the loop after vars.clear() in run_function_call). -/
def bindPairs (names : List String) (vals : List ℚ) : Vars :=
  (names.zip vals).foldl (fun m p => setVar m p.1 p.2) []

/-! ### Expression evaluator and function engine
(src/main.py lines 29-103 and 171-205)

All functions of the mutually recursive group take fuel, decremented at
every call of the group and at every loop iteration; recursion through
user-defined functions need not terminate, so fuel is essential.  Fuel
exhaustion is the distinguished error Err.fuel: every property below
pins a non-fuel outcome, so no property can be satisfied by an
exhaustion artifact. -/

mutual

/-- Embedding of parse_factor (src/main.py lines 29-75).  Note the
source checks whether the token after the popped one is an opening
parenthesis before checking whether the popped token itself is one, and
pops the token closing an argument list without comparing it to the
closing parenthesis. -/
def parse_factor (B : Builtins) (F : Funcs) (fuel : Nat) (st : St) :
    Except (Err × St) (ℚ × St) :=
  match fuel with
  | 0 => .error (.fuel, st)
  | fuel + 1 =>
    match st.toks with
    | [] => .error (.index, st)
    | token :: rest =>
      if rest.head? = some "(" then
        let r2 := rest.tail
        let argsR : Except (Err × St) (List ℚ × St) :=
          match r2 with
          | [] => .ok ([], ⟨[], st.vars⟩)
          | t0 :: _ =>
            if t0 = ")" then .ok ([], ⟨r2, st.vars⟩)
            else
              match eval_expr B F fuel ⟨r2, st.vars⟩ with
              | .error e => .error e
              | .ok (v, st1) => parse_call_args B F fuel [v] st1
        match argsR with
        | .error e => .error e
        | .ok (args, st2) =>
          match st2.toks with
          | [] => .error (.value "Unclosed parenthesis", st2)
          | _ :: r3 =>
            match B token with
            | some bf =>
              match bf args with
              | .ok val => .ok (val, ⟨r3, st2.vars⟩)
              | .error msg =>
                .error (.value ("Error in builtin function " ++ token ++ ": " ++ msg),
                  ⟨r3, st2.vars⟩)
            | none =>
              match lookupFn F token with
              | some _ =>
                match run_function_call B F fuel token args st2.vars with
                | .ok (res, v2) => .ok (res.headD 0, ⟨r3, v2⟩)
                | .error (e, v2) => .error (e, ⟨r3, v2⟩)
              | none => .error (.value ("Unknown function: " ++ token), ⟨r3, st2.vars⟩)
      else if token = "(" then
        match eval_expr B F fuel ⟨rest, st.vars⟩ with
        | .error e => .error e
        | .ok (v, st1) =>
          match st1.toks with
          | [] => .error (.value "Expected closing parenthesis", st1)
          | t :: r =>
            if t = ")" then .ok (v, ⟨r, st1.vars⟩)
            else .error (.value "Expected closing parenthesis", ⟨r, st1.vars⟩)
      else
        match lookupVars st.vars token with
        | some v => .ok (v, ⟨rest, st.vars⟩)
        | none =>
          match parseFloat token with
          | some q => .ok (q, ⟨rest, st.vars⟩)
          | none => .error (.value ("Unrecognized token or variable: " ++ token), ⟨rest, st.vars⟩)

/-- The comma loop collecting further call arguments
(src/main.py lines 38-40). -/
def parse_call_args (B : Builtins) (F : Funcs) (fuel : Nat) (args : List ℚ) (st : St) :
    Except (Err × St) (List ℚ × St) :=
  match fuel with
  | 0 => .error (.fuel, st)
  | fuel + 1 =>
    match st.toks with
    | "," :: r =>
      match eval_expr B F fuel ⟨r, st.vars⟩ with
      | .error e => .error e
      | .ok (v, st1) => parse_call_args B F fuel (args ++ [v]) st1
    | _ => .ok (args, st)

/-- Embedding of parse_exponent (src/main.py lines 77-82). -/
def parse_exponent (B : Builtins) (F : Funcs) (fuel : Nat) (st : St) :
    Except (Err × St) (ℚ × St) :=
  match fuel with
  | 0 => .error (.fuel, st)
  | fuel + 1 =>
    match parse_factor B F fuel st with
    | .error e => .error e
    | .ok (v, st1) => parse_exponent_go B F fuel v st1

/-- The caret loop of parse_exponent, left-associative. -/
def parse_exponent_go (B : Builtins) (F : Funcs) (fuel : Nat) (v : ℚ) (st : St) :
    Except (Err × St) (ℚ × St) :=
  match fuel with
  | 0 => .error (.fuel, st)
  | fuel + 1 =>
    match st.toks with
    | op :: r =>
      if op = "^" then
        match parse_factor B F fuel ⟨r, st.vars⟩ with
        | .error e => .error e
        | .ok (w, st1) => parse_exponent_go B F fuel (pypow v w) st1
      else .ok (v, st)
    | [] => .ok (v, st)

/-- Embedding of parse_term (src/main.py lines 84-95). -/
def parse_term (B : Builtins) (F : Funcs) (fuel : Nat) (st : St) :
    Except (Err × St) (ℚ × St) :=
  match fuel with
  | 0 => .error (.fuel, st)
  | fuel + 1 =>
    match parse_exponent B F fuel st with
    | .error e => .error e
    | .ok (v, st1) => parse_term_go B F fuel v st1

/-- The star-slash loop of parse_term; the right operand of a division
is compared with zero before dividing. -/
def parse_term_go (B : Builtins) (F : Funcs) (fuel : Nat) (v : ℚ) (st : St) :
    Except (Err × St) (ℚ × St) :=
  match fuel with
  | 0 => .error (.fuel, st)
  | fuel + 1 =>
    match st.toks with
    | op :: r =>
      if op = "*" || op = "/" then
        match parse_exponent B F fuel ⟨r, st.vars⟩ with
        | .error e => .error e
        | .ok (rhs, st1) =>
          if op = "*" then parse_term_go B F fuel (v * rhs) st1
          else if rhs = 0 then .error (.value "Division by zero", st1)
          else parse_term_go B F fuel (v / rhs) st1
      else .ok (v, st)
    | [] => .ok (v, st)

/-- Embedding of eval_expr (src/main.py lines 97-103). -/
def eval_expr (B : Builtins) (F : Funcs) (fuel : Nat) (st : St) :
    Except (Err × St) (ℚ × St) :=
  match fuel with
  | 0 => .error (.fuel, st)
  | fuel + 1 =>
    match parse_term B F fuel st with
    | .error e => .error e
    | .ok (v, st1) => eval_expr_go B F fuel v st1

/-- The plus-minus loop of eval_expr. -/
def eval_expr_go (B : Builtins) (F : Funcs) (fuel : Nat) (v : ℚ) (st : St) :
    Except (Err × St) (ℚ × St) :=
  match fuel with
  | 0 => .error (.fuel, st)
  | fuel + 1 =>
    match st.toks with
    | op :: r =>
      if op = "+" || op = "-" then
        match parse_term B F fuel ⟨r, st.vars⟩ with
        | .error e => .error e
        | .ok (rhs, st1) =>
          if op = "+" then eval_expr_go B F fuel (v + rhs) st1
          else eval_expr_go B F fuel (v - rhs) st1
      else .ok (v, st)
    | [] => .ok (v, st)

/-- Embedding of run_function_call (src/main.py lines 171-205).  The
snapshot-restore of the source is the pair of vars.clear();
vars.update(saved) lines after the body loop; they run only when every
body statement evaluated without error, so a failing body statement
propagates with the transient call environment still installed. -/
def run_function_call (B : Builtins) (F : Funcs) (fuel : Nat) (name : String)
    (args : List ℚ) (v : Vars) : Except (Err × Vars) (List ℚ × Vars) :=
  match fuel with
  | 0 => .error (.fuel, v)
  | fuel + 1 =>
    match B name with
    | some bf =>
      match bf args with
      | .ok r => .ok ([r], v)
      | .error msg =>
        .error (.value ("Error in builtin function " ++ name ++ ": " ++ msg), v)
    | none =>
      match lookupFn F name with
      | none => .error (.value ("Function not defined: " ++ name), v)
      | some f =>
        if args.length ≠ f.args.length then
          .error (.value ("Arg count mismatch for: " ++ name), v)
        else
          let saved := v
          match run_body B F fuel f.body (bindPairs f.args args) with
          | .error (e, v1) => .error (e, v1)
          | .ok v1 =>
            let res := f.outputs.map (fun o => (lookupVars v1 o).getD 0)
            .ok (res, saved)

/-- The body loop of run_function_call (src/main.py lines 193-198):
each line containing an equals sign is split at its first occurrence,
both sides stripped, the right side tokenized and evaluated, and the
result stored under the left side; other lines are skipped. -/
def run_body (B : Builtins) (F : Funcs) (fuel : Nat) (lines : List String) (v : Vars) :
    Except (Err × Vars) Vars :=
  match fuel with
  | 0 => .error (.fuel, v)
  | fuel + 1 =>
    match lines with
    | [] => .ok v
    | line :: restL =>
      match splitOnceList line.data ['='] with
      | some (lhs0, expr0) =>
        let lhs := String.mk (pyStripList lhs0)
        let expr := String.mk (pyStripList expr0)
        match tokenize fuel expr with
        | none => .error (.fuel, v)
        | some toks =>
          match eval_expr B F fuel ⟨toks, v⟩ with
          | .error (e, st) => .error (e, st.vars)
          | .ok (val, st) => run_body B F fuel restL (setVar st.vars lhs val)
      | none => run_body B F fuel restL v

end

/-! ### Function definition parser (src/main.py lines 127-147) -/

/-- Embedding of parse_function_definition: given the captured block
(header line, body lines, terminating end line), produce the registry
entry the source stores, or the exception it raises.  The header must
contain the literal character sequence equals-space-d-e-f; the output
list is read from inside the leading bracket pair of the stripped text
before the first equals sign, the parameters from inside the
parenthesis of the text after the first occurrence of d-e-f, blank
entries discarded on both sides. -/
def parse_function_definition (lines : List String) :
    Except Err (String × FunctionDef) :=
  match lines with
  | [] => .error .index
  | l0 :: _ =>
    let header := pyStrip l0
    if hasSubStr header "= def" then
      match splitOnceList header.data ['='] with
      | none => .error .index
      | some (outPart, rest) =>
        let func_part := String.mk (pyStripList rest)
        if hasSubStr func_part "def" then
          match splitOnceList func_part.data ['d', 'e', 'f'] with
          | none => .error .index
          | some (_, fp0) =>
            let fp := pyStripList fp0
            match splitOnceList fp ['('] with
            | none => .error (.value "not enough values to unpack (expected 2, got 1)")
            | some (nameCs, argsCs) =>
              let args := ((splitAllList ',' (rstripParens argsCs)).map
                (fun w => String.mk (pyStripList w))).filter (fun w => w ≠ "")
              let outputs := ((splitAllList ','
                  ((pyStripList outPart).drop 1).dropLast).map
                (fun w => String.mk (pyStripList w))).filter (fun w => w ≠ "")
              let body := (lines.drop 1).dropLast
              .ok (String.mk (pyStripList nameCs), ⟨args, outputs, body⟩)
        else .error (.value ("Invalid function definition header: " ++ func_part))
    else .error (.value ("Invalid function definition header: " ++ header))

/-- An empty built-in gateway, for properties about inputs that consult
no built-in. -/
def noBuiltins : Builtins := fun _ => none

/-- A sample gateway exposing one native function named sin (the
gateway is an opaque external collaborator, so any callable serves). -/
def gwSin : Builtins :=
  fun n => if n = "sin" then some (fun a => .ok (a.headD 0 + 100)) else none

/-- A sample gateway exposing one native function named b. -/
def gwConst : Builtins :=
  fun n => if n = "b" then some (fun _ => .ok 42) else none

/-- A sample gateway whose native function always fails. -/
def gwBad : Builtins :=
  fun n => if n = "bad" then some (fun _ => .error "boom") else none

/-- Registry holding a zero-parameter function whose body divides by
zero, as registered from the block bracket-y equals def f parens with
body line y = 1/0. -/
def regDiv : Funcs := [("f", ⟨[], ["y"], ["y = 1/0"]⟩)]

/-- Registry holding the square function of the specification's test
properties. -/
def regSquare : Funcs := [("square", ⟨["x"], ["y"], ["y = x^2"]⟩)]

/-- Registry holding a one-parameter function g whose body divides by
zero. -/
def regGFail : Funcs := [("g", ⟨["x"], ["y"], ["y = 1/0"]⟩)]

/-- Registry holding a parameterless, outputless user function u and a
user function named b that collides with the gwConst native name. -/
def regPair : Funcs := [("u", ⟨[], [], []⟩), ("b", ⟨[], [], []⟩)]

/-! ### Call-free arithmetic expressions

The reference semantics for claim C3: abstract syntax of well-formed
arithmetic expressions without calls, their token strings, and their
standard left-to-right, precedence-respecting denotation.  The
denotation is written directly from the arithmetic the specification
states (left-associative levels, division undefined on zero
denominators, exponentiation via pypow), independently of the
recursive-descent code; the refinement theorem connects the two. -/

/-- Call-free arithmetic expressions: numeric literals, parenthesized
sub-expressions, and the five binary operators. -/
inductive Exp where
  | num : String → Exp
  | paren : Exp → Exp
  | add : Exp → Exp → Exp
  | sub : Exp → Exp → Exp
  | mul : Exp → Exp → Exp
  | div : Exp → Exp → Exp
  | pow : Exp → Exp → Exp

/-- The grammar level a node naturally carries: additive 0,
multiplicative 1, exponent 2, factor 3. -/
def lvl : Exp → Nat
  | .num _ => 3
  | .paren _ => 3
  | .pow _ _ => 2
  | .mul _ _ => 1
  | .div _ _ => 1
  | .add _ _ => 0
  | .sub _ _ => 0

/-- The token string of an expression: literals are single tokens, a
parenthesized sub-expression is wrapped in parenthesis tokens, and a
binary node writes left operand, operator token, right operand. -/
def flat : Exp → List String
  | .num s => [s]
  | .paren e => "(" :: flat e ++ [")"]
  | .add a b => flat a ++ "+" :: flat b
  | .sub a b => flat a ++ "-" :: flat b
  | .mul a b => flat a ++ "*" :: flat b
  | .div a b => flat a ++ "/" :: flat b
  | .pow a b => flat a ++ "^" :: flat b

/-- The first token of an expression's token string. -/
def headTok : Exp → String
  | .num s => s
  | .paren _ => "("
  | .add a _ => headTok a
  | .sub a _ => headTok a
  | .mul a _ => headTok a
  | .div a _ => headTok a
  | .pow a _ => headTok a

/-- Well-formedness: each operand sits at a level at least as tight as
the grammar slot it occupies (so the token string reads back with the
declared precedence and left associativity), and no parenthesized
sub-expression starts with another opening parenthesis — the restriction
forced on claim C3 by the source's call-detection order. -/
def Struct : Exp → Prop
  | .num _ => True
  | .paren e => Struct e ∧ headTok e ≠ "("
  | .add a b => Struct a ∧ Struct b ∧ 1 ≤ lvl b
  | .sub a b => Struct a ∧ Struct b ∧ 1 ≤ lvl b
  | .mul a b => Struct a ∧ Struct b ∧ 1 ≤ lvl a ∧ 2 ≤ lvl b
  | .div a b => Struct a ∧ Struct b ∧ 1 ≤ lvl a ∧ 2 ≤ lvl b
  | .pow a b => Struct a ∧ Struct b ∧ 2 ≤ lvl a ∧ 3 ≤ lvl b

/-- Side conditions on literals relative to an environment: every
literal token parses as a number and is not shadowed by a variable of
the same name. -/
def NumsOK (v : Vars) : Exp → Prop
  | .num s => (parseFloat s).isSome ∧ lookupVars v s = none
  | .paren e => NumsOK v e
  | .add a b => NumsOK v a ∧ NumsOK v b
  | .sub a b => NumsOK v a ∧ NumsOK v b
  | .mul a b => NumsOK v a ∧ NumsOK v b
  | .div a b => NumsOK v a ∧ NumsOK v b
  | .pow a b => NumsOK v a ∧ NumsOK v b

/-- Standard arithmetic denotation: left and right operands evaluated,
division by zero undefined, exponentiation via pypow. -/
def denote : Exp → Option ℚ
  | .num s => parseFloat s
  | .paren e => denote e
  | .add a b =>
    match denote a, denote b with
    | some x, some y => some (x + y)
    | _, _ => none
  | .sub a b =>
    match denote a, denote b with
    | some x, some y => some (x - y)
    | _, _ => none
  | .mul a b =>
    match denote a, denote b with
    | some x, some y => some (x * y)
    | _, _ => none
  | .div a b =>
    match denote a, denote b with
    | some x, some y => if y = 0 then none else some (x / y)
    | _, _ => none
  | .pow a b =>
    match denote a, denote b with
    | some x, some y => some (pypow x y)
    | _, _ => none

/-- The leftmost non-additive descendant: the operand the initial
parse_term of eval_expr consumes. -/
def eBase : Exp → Exp
  | .add a _ => eBase a
  | .sub a _ => eBase a
  | e => e

/-- The token string of the additive spine after its base. -/
def eOps : Exp → List String
  | .add a b => eOps a ++ "+" :: flat b
  | .sub a b => eOps a ++ "-" :: flat b
  | _ => []

/-- Folding the additive spine left-to-right from a seed value. -/
def eFold (w : ℚ) : Exp → Option ℚ
  | .add a b =>
    match eFold w a, denote b with
    | some x, some y => some (x + y)
    | _, _ => none
  | .sub a b =>
    match eFold w a, denote b with
    | some x, some y => some (x - y)
    | _, _ => none
  | _ => some w

/-- The leftmost non-multiplicative descendant. -/
def tBase : Exp → Exp
  | .mul a _ => tBase a
  | .div a _ => tBase a
  | e => e

/-- The token string of the multiplicative spine after its base. -/
def tOps : Exp → List String
  | .mul a b => tOps a ++ "*" :: flat b
  | .div a b => tOps a ++ "/" :: flat b
  | _ => []

/-- Folding the multiplicative spine left-to-right from a seed value,
with the division-by-zero guard. -/
def tFold (w : ℚ) : Exp → Option ℚ
  | .mul a b =>
    match tFold w a, denote b with
    | some x, some y => some (x * y)
    | _, _ => none
  | .div a b =>
    match tFold w a, denote b with
    | some x, some y => if y = 0 then none else some (x / y)
    | _, _ => none
  | _ => some w

/-- The leftmost non-exponent descendant. -/
def xBase : Exp → Exp
  | .pow a _ => xBase a
  | e => e

/-- The token string of the exponent spine after its base. -/
def xOps : Exp → List String
  | .pow a b => xOps a ++ "^" :: flat b
  | _ => []

/-- Folding the exponent spine left-to-right from a seed value. -/
def xFold (w : ℚ) : Exp → Option ℚ
  | .pow a b =>
    match xFold w a, denote b with
    | some x, some y => some (pypow x y)
    | _, _ => none
  | _ => some w

/-- Size measure for the strong induction below. -/
def esz : Exp → Nat
  | .num _ => 1
  | .paren e => esz e + 1
  | .add a b => esz a + esz b + 1
  | .sub a b => esz a + esz b + 1
  | .mul a b => esz a + esz b + 1
  | .div a b => esz a + esz b + 1
  | .pow a b => esz a + esz b + 1

/-- A fueled computation reaches a stable result: some fuel suffices
and every larger fuel gives the same outcome. -/
def Computes {α : Type} (g : Nat → α) (r : α) : Prop :=
  ∃ f0, ∀ f, f0 ≤ f → g f = r

/-- Continuation tokens a factor may stop in front of. -/
def FactorCont (t : Option String) : Prop := t ≠ some "("

/-- Continuation tokens an exponent chain may stop in front of. -/
def ExpoCont (t : Option String) : Prop := FactorCont t ∧ t ≠ some "^"

/-- Continuation tokens a term chain may stop in front of. -/
def TermCont (t : Option String) : Prop := ExpoCont t ∧ t ≠ some "*" ∧ t ≠ some "/"

/-- Continuation tokens a full expression may stop in front of. -/
def ExprCont (t : Option String) : Prop := TermCont t ∧ t ≠ some "+" ∧ t ≠ some "-"

/-- parse_factor computes the denotation of a factor-level expression
and consumes exactly its tokens. -/
def FactorStmt (B : Builtins) (F : Funcs) (v : Vars) (e : Exp) : Prop :=
  ∀ q rest, Struct e → NumsOK v e → 3 ≤ lvl e → denote e = some q →
    FactorCont rest.head? →
    Computes (fun f => parse_factor B F f ⟨flat e ++ rest, v⟩) (.ok (q, ⟨rest, v⟩))

/-- The caret loop started on the spine tokens of e with accumulator w
behaves like the loop started after them with the folded value. -/
def XChainStmt (B : Builtins) (F : Funcs) (v : Vars) (e : Exp) : Prop :=
  ∀ w u rest R, Struct e → NumsOK v e → xFold w e = some u →
    FactorCont rest.head? →
    Computes (fun f => parse_exponent_go B F f u ⟨rest, v⟩) R →
    Computes (fun f => parse_exponent_go B F f w ⟨xOps e ++ rest, v⟩) R

/-- parse_exponent computes the denotation of an exponent-level
expression and consumes exactly its tokens. -/
def ExpoStmt (B : Builtins) (F : Funcs) (v : Vars) (e : Exp) : Prop :=
  ∀ q rest, Struct e → NumsOK v e → 2 ≤ lvl e → denote e = some q →
    ExpoCont rest.head? →
    Computes (fun f => parse_exponent B F f ⟨flat e ++ rest, v⟩) (.ok (q, ⟨rest, v⟩))

/-- The star-slash loop started on the spine tokens of e with
accumulator w behaves like the loop started after them with the folded
value. -/
def TChainStmt (B : Builtins) (F : Funcs) (v : Vars) (e : Exp) : Prop :=
  ∀ w u rest R, Struct e → NumsOK v e → tFold w e = some u →
    ExpoCont rest.head? →
    Computes (fun f => parse_term_go B F f u ⟨rest, v⟩) R →
    Computes (fun f => parse_term_go B F f w ⟨tOps e ++ rest, v⟩) R

/-- parse_term computes the denotation of a term-level expression and
consumes exactly its tokens. -/
def TermStmt (B : Builtins) (F : Funcs) (v : Vars) (e : Exp) : Prop :=
  ∀ q rest, Struct e → NumsOK v e → 1 ≤ lvl e → denote e = some q →
    TermCont rest.head? →
    Computes (fun f => parse_term B F f ⟨flat e ++ rest, v⟩) (.ok (q, ⟨rest, v⟩))

/-- The plus-minus loop started on the spine tokens of e with
accumulator w behaves like the loop started after them with the folded
value. -/
def EChainStmt (B : Builtins) (F : Funcs) (v : Vars) (e : Exp) : Prop :=
  ∀ w u rest R, Struct e → NumsOK v e → eFold w e = some u →
    TermCont rest.head? →
    Computes (fun f => eval_expr_go B F f u ⟨rest, v⟩) R →
    Computes (fun f => eval_expr_go B F f w ⟨eOps e ++ rest, v⟩) R

/-- eval_expr computes the denotation of an expression and consumes
exactly its tokens. -/
def ExprStmt (B : Builtins) (F : Funcs) (v : Vars) (e : Exp) : Prop :=
  ∀ q rest, Struct e → NumsOK v e → denote e = some q →
    ExprCont rest.head? →
    Computes (fun f => eval_expr B F f ⟨flat e ++ rest, v⟩) (.ok (q, ⟨rest, v⟩))

/-- The full simulation bundle established by the strong induction. -/
def EvalSim (B : Builtins) (F : Funcs) (v : Vars) (e : Exp) : Prop :=
  FactorStmt B F v e ∧ XChainStmt B F v e ∧ ExpoStmt B F v e ∧
    TChainStmt B F v e ∧ TermStmt B F v e ∧ EChainStmt B F v e ∧ ExprStmt B F v e

/-! ### Verified properties -/

/-- Values of the float parser on the digit tokens used below. -/
theorem parseFloat_digits :
    parseFloat "0" = some 0 ∧ parseFloat "1" = some 1 ∧ parseFloat "2" = some 2 ∧
    parseFloat "3" = some 3 ∧ parseFloat "4" = some 4 ∧ parseFloat "5" = some 5 := by
  refine ⟨?_, ?_, ?_, ?_, ?_, ?_⟩ <;> simp +decide [parseFloat]

/-- A number token is never the opening parenthesis. -/
theorem parseFloat_ne_lparen (s : String) (h : (parseFloat s).isSome) : s ≠ "(" := by
  intro hs
  rw [hs] at h
  exact absurd h (by decide)

/-- The token string of an expression starts with its head token. -/
theorem flat_cons (e : Exp) : ∃ t, flat e = headTok e :: t := by
  induction e with
  | num s => exact ⟨[], rfl⟩
  | paren e ih => exact ⟨flat e ++ [")"], rfl⟩
  | add a b iha ihb =>
    obtain ⟨t, ht⟩ := iha
    exact ⟨t ++ "+" :: flat b, by simp [flat, headTok, ht]⟩
  | sub a b iha ihb =>
    obtain ⟨t, ht⟩ := iha
    exact ⟨t ++ "-" :: flat b, by simp [flat, headTok, ht]⟩
  | mul a b iha ihb =>
    obtain ⟨t, ht⟩ := iha
    exact ⟨t ++ "*" :: flat b, by simp [flat, headTok, ht]⟩
  | div a b iha ihb =>
    obtain ⟨t, ht⟩ := iha
    exact ⟨t ++ "/" :: flat b, by simp [flat, headTok, ht]⟩
  | pow a b iha ihb =>
    obtain ⟨t, ht⟩ := iha
    exact ⟨t ++ "^" :: flat b, by simp [flat, headTok, ht]⟩

/-- The additive spine tokens are empty or start with a plus or minus
operator token. -/
theorem eOps_shape (e : Exp) :
    eOps e = [] ∨ ∃ op t, eOps e = op :: t ∧ (op = "+" ∨ op = "-") := by
  induction e with
  | add a b iha ihb =>
    right
    rcases iha with h | ⟨op, t, ht, hop⟩
    · exact ⟨"+", flat b, by simp [eOps, h], Or.inl rfl⟩
    · exact ⟨op, t ++ "+" :: flat b, by simp [eOps, ht], hop⟩
  | sub a b iha ihb =>
    right
    rcases iha with h | ⟨op, t, ht, hop⟩
    · exact ⟨"-", flat b, by simp [eOps, h], Or.inr rfl⟩
    · exact ⟨op, t ++ "-" :: flat b, by simp [eOps, ht], hop⟩
  | num s => left; rfl
  | paren e ih => left; rfl
  | mul a b iha ihb => left; rfl
  | div a b iha ihb => left; rfl
  | pow a b iha ihb => left; rfl

/-- The multiplicative spine tokens are empty or start with a star or
slash operator token. -/
theorem tOps_shape (e : Exp) :
    tOps e = [] ∨ ∃ op t, tOps e = op :: t ∧ (op = "*" ∨ op = "/") := by
  induction e with
  | mul a b iha ihb =>
    right
    rcases iha with h | ⟨op, t, ht, hop⟩
    · exact ⟨"*", flat b, by simp [tOps, h], Or.inl rfl⟩
    · exact ⟨op, t ++ "*" :: flat b, by simp [tOps, ht], hop⟩
  | div a b iha ihb =>
    right
    rcases iha with h | ⟨op, t, ht, hop⟩
    · exact ⟨"/", flat b, by simp [tOps, h], Or.inr rfl⟩
    · exact ⟨op, t ++ "/" :: flat b, by simp [tOps, ht], hop⟩
  | num s => left; rfl
  | paren e ih => left; rfl
  | add a b iha ihb => left; rfl
  | sub a b iha ihb => left; rfl
  | pow a b iha ihb => left; rfl

/-- The exponent spine tokens are empty or start with a caret token. -/
theorem xOps_shape (e : Exp) :
    xOps e = [] ∨ ∃ t, xOps e = "^" :: t := by
  induction e with
  | pow a b iha ihb =>
    right
    rcases iha with h | ⟨t, ht⟩
    · exact ⟨flat b, by simp [xOps, h]⟩
    · exact ⟨t ++ "^" :: flat b, by simp [xOps, ht]⟩
  | num s => left; rfl
  | paren e ih => left; rfl
  | add a b iha ihb => left; rfl
  | sub a b iha ihb => left; rfl
  | mul a b iha ihb => left; rfl
  | div a b iha ihb => left; rfl

/-- An expression's tokens are its additive base's tokens followed by
its additive spine tokens. -/
theorem flat_eBase (e : Exp) : flat e = flat (eBase e) ++ eOps e := by
  induction e with
  | add a b iha ihb => simp [flat, eBase, eOps, iha]
  | sub a b iha ihb => simp [flat, eBase, eOps, iha]
  | num s => simp [flat, eBase, eOps]
  | paren e ih => simp [eBase, eOps]
  | mul a b iha ihb => simp [eBase, eOps]
  | div a b iha ihb => simp [eBase, eOps]
  | pow a b iha ihb => simp [eBase, eOps]

/-- An expression's tokens are its multiplicative base's tokens
followed by its multiplicative spine tokens. -/
theorem flat_tBase (e : Exp) : flat e = flat (tBase e) ++ tOps e := by
  induction e with
  | mul a b iha ihb => simp [flat, tBase, tOps, iha]
  | div a b iha ihb => simp [flat, tBase, tOps, iha]
  | num s => simp [tBase, tOps]
  | paren e ih => simp [tBase, tOps]
  | add a b iha ihb => simp [tBase, tOps]
  | sub a b iha ihb => simp [tBase, tOps]
  | pow a b iha ihb => simp [tBase, tOps]

/-- An expression's tokens are its exponent base's tokens followed by
its exponent spine tokens. -/
theorem flat_xBase (e : Exp) : flat e = flat (xBase e) ++ xOps e := by
  induction e with
  | pow a b iha ihb => simp [flat, xBase, xOps, iha]
  | num s => simp [xBase, xOps]
  | paren e ih => simp [xBase, xOps]
  | add a b iha ihb => simp [xBase, xOps]
  | sub a b iha ihb => simp [xBase, xOps]
  | mul a b iha ihb => simp [xBase, xOps]
  | div a b iha ihb => simp [xBase, xOps]

/-- The denotation factors through the additive base and spine fold. -/
theorem denote_eFold (e : Exp) :
    denote e = (denote (eBase e)).bind (fun w => eFold w e) := by
  induction e with
  | add a b iha ihb =>
    simp only [denote, eBase, eFold]
    rw [iha]
    cases denote (eBase a) <;> simp
  | sub a b iha ihb =>
    simp only [denote, eBase, eFold]
    rw [iha]
    cases denote (eBase a) <;> simp
  | num s => simp [eBase, eFold]
  | paren e ih => simp [eBase, eFold]
  | mul a b iha ihb => simp [eBase, eFold]
  | div a b iha ihb => simp [eBase, eFold]
  | pow a b iha ihb => simp [eBase, eFold]

/-- The denotation factors through the multiplicative base and spine
fold. -/
theorem denote_tFold (e : Exp) :
    denote e = (denote (tBase e)).bind (fun w => tFold w e) := by
  induction e with
  | mul a b iha ihb =>
    simp only [denote, tBase, tFold]
    rw [iha]
    cases denote (tBase a) <;> simp
  | div a b iha ihb =>
    simp only [denote, tBase, tFold]
    rw [iha]
    cases denote (tBase a) <;> simp
  | num s => simp [tBase, tFold]
  | paren e ih => simp [tBase, tFold]
  | add a b iha ihb => simp [tBase, tFold]
  | sub a b iha ihb => simp [tBase, tFold]
  | pow a b iha ihb => simp [tBase, tFold]

/-- The denotation factors through the exponent base and spine fold. -/
theorem denote_xFold (e : Exp) :
    denote e = (denote (xBase e)).bind (fun w => xFold w e) := by
  induction e with
  | pow a b iha ihb =>
    simp only [denote, xBase, xFold]
    rw [iha]
    cases denote (xBase a) <;> simp
  | num s => simp [xBase, xFold]
  | paren e ih => simp [xBase, xFold]
  | add a b iha ihb => simp [xBase, xFold]
  | sub a b iha ihb => simp [xBase, xFold]
  | mul a b iha ihb => simp [xBase, xFold]
  | div a b iha ihb => simp [xBase, xFold]

/-- Well-formedness passes to the additive base. -/
theorem Struct_eBase (e : Exp) (h : Struct e) : Struct (eBase e) := by
  induction e with
  | add a b iha ihb => exact iha h.1
  | sub a b iha ihb => exact iha h.1
  | num s => exact h
  | paren e ih => exact h
  | mul a b iha ihb => exact h
  | div a b iha ihb => exact h
  | pow a b iha ihb => exact h

/-- Well-formedness passes to the multiplicative base. -/
theorem Struct_tBase (e : Exp) (h : Struct e) : Struct (tBase e) := by
  induction e with
  | mul a b iha ihb => exact iha h.1
  | div a b iha ihb => exact iha h.1
  | num s => exact h
  | paren e ih => exact h
  | add a b iha ihb => exact h
  | sub a b iha ihb => exact h
  | pow a b iha ihb => exact h

/-- Well-formedness passes to the exponent base. -/
theorem Struct_xBase (e : Exp) (h : Struct e) : Struct (xBase e) := by
  induction e with
  | pow a b iha ihb => exact iha h.1
  | num s => exact h
  | paren e ih => exact h
  | add a b iha ihb => exact h
  | sub a b iha ihb => exact h
  | mul a b iha ihb => exact h
  | div a b iha ihb => exact h

/-- Literal side conditions pass to the additive base. -/
theorem NumsOK_eBase (v : Vars) (e : Exp) (h : NumsOK v e) : NumsOK v (eBase e) := by
  induction e with
  | add a b iha ihb => exact iha h.1
  | sub a b iha ihb => exact iha h.1
  | num s => exact h
  | paren e ih => exact h
  | mul a b iha ihb => exact h
  | div a b iha ihb => exact h
  | pow a b iha ihb => exact h

/-- Literal side conditions pass to the multiplicative base. -/
theorem NumsOK_tBase (v : Vars) (e : Exp) (h : NumsOK v e) : NumsOK v (tBase e) := by
  induction e with
  | mul a b iha ihb => exact iha h.1
  | div a b iha ihb => exact iha h.1
  | num s => exact h
  | paren e ih => exact h
  | add a b iha ihb => exact h
  | sub a b iha ihb => exact h
  | pow a b iha ihb => exact h

/-- Literal side conditions pass to the exponent base. -/
theorem NumsOK_xBase (v : Vars) (e : Exp) (h : NumsOK v e) : NumsOK v (xBase e) := by
  induction e with
  | pow a b iha ihb => exact iha h.1
  | num s => exact h
  | paren e ih => exact h
  | add a b iha ihb => exact h
  | sub a b iha ihb => exact h
  | mul a b iha ihb => exact h
  | div a b iha ihb => exact h

/-- The additive base of a well-formed expression is at least
multiplicative level. -/
theorem lvl_eBase (e : Exp) (h : Struct e) : 1 ≤ lvl (eBase e) := by
  induction e with
  | add a b iha ihb => exact iha h.1
  | sub a b iha ihb => exact iha h.1
  | num s => simp [eBase, lvl]
  | paren e ih => simp [eBase, lvl]
  | mul a b iha ihb => simp [eBase, lvl]
  | div a b iha ihb => simp [eBase, lvl]
  | pow a b iha ihb => simp [eBase, lvl]

/-- The multiplicative base of a well-formed expression of at least
multiplicative level is at least exponent level. -/
theorem lvl_tBase (e : Exp) (h : Struct e) (hl : 1 ≤ lvl e) : 2 ≤ lvl (tBase e) := by
  induction e with
  | mul a b iha ihb => exact iha h.1 h.2.2.1
  | div a b iha ihb => exact iha h.1 h.2.2.1
  | num s => simp [tBase, lvl]
  | paren e ih => simp [tBase, lvl]
  | add a b iha ihb => simp [lvl] at hl
  | sub a b iha ihb => simp [lvl] at hl
  | pow a b iha ihb => simp [tBase, lvl]

/-- The exponent base of a well-formed expression of at least exponent
level is factor level. -/
theorem lvl_xBase (e : Exp) (h : Struct e) (hl : 2 ≤ lvl e) : 3 ≤ lvl (xBase e) := by
  induction e with
  | pow a b iha ihb => exact iha h.1 h.2.2.1
  | num s => simp [xBase, lvl]
  | paren e ih => simp [xBase, lvl]
  | add a b iha ihb => simp [lvl] at hl
  | sub a b iha ihb => simp [lvl] at hl
  | mul a b iha ihb => simp [lvl] at hl
  | div a b iha ihb => simp [lvl] at hl

/-- The additive base is no larger than the expression. -/
theorem esz_eBase_le (e : Exp) : esz (eBase e) ≤ esz e := by
  induction e with
  | add a b iha ihb => refine le_trans iha ?_; simp [esz]; omega
  | sub a b iha ihb => refine le_trans iha ?_; simp [esz]; omega
  | num s => simp [eBase]
  | paren e ih => simp [eBase]
  | mul a b iha ihb => simp [eBase]
  | div a b iha ihb => simp [eBase]
  | pow a b iha ihb => simp [eBase]

/-- The multiplicative base is no larger than the expression. -/
theorem esz_tBase_le (e : Exp) : esz (tBase e) ≤ esz e := by
  induction e with
  | mul a b iha ihb => refine le_trans iha ?_; simp [esz]; omega
  | div a b iha ihb => refine le_trans iha ?_; simp [esz]; omega
  | num s => simp [tBase]
  | paren e ih => simp [tBase]
  | add a b iha ihb => simp [tBase]
  | sub a b iha ihb => simp [tBase]
  | pow a b iha ihb => simp [tBase]

/-- The exponent base is no larger than the expression. -/
theorem esz_xBase_le (e : Exp) : esz (xBase e) ≤ esz e := by
  induction e with
  | pow a b iha ihb => refine le_trans iha ?_; simp [esz]; omega
  | num s => simp [xBase]
  | paren e ih => simp [xBase]
  | add a b iha ihb => simp [xBase]
  | sub a b iha ihb => simp [xBase]
  | mul a b iha ihb => simp [xBase]
  | div a b iha ihb => simp [xBase]

/-- The caret loop returns its accumulator at once when the next token
is not the caret. -/
theorem expo_go_exit (B : Builtins) (F : Funcs) (q : ℚ) (v : Vars) (rest : List String)
    (h : rest.head? ≠ some "^") :
    Computes (fun f => parse_exponent_go B F f q ⟨rest, v⟩) (.ok (q, ⟨rest, v⟩)) := by
  refine ⟨1, fun f hf => ?_⟩
  obtain ⟨f', rfl⟩ : ∃ f', f = f' + 1 := ⟨f - 1, by omega⟩
  cases rest with
  | nil => simp [parse_exponent_go]
  | cons op r =>
    have hop : op ≠ "^" := by simpa using h
    simp [parse_exponent_go, hop]

/-- The star-slash loop returns its accumulator at once when the next
token is neither star nor slash. -/
theorem term_go_exit (B : Builtins) (F : Funcs) (q : ℚ) (v : Vars) (rest : List String)
    (h1 : rest.head? ≠ some "*") (h2 : rest.head? ≠ some "/") :
    Computes (fun f => parse_term_go B F f q ⟨rest, v⟩) (.ok (q, ⟨rest, v⟩)) := by
  refine ⟨1, fun f hf => ?_⟩
  obtain ⟨f', rfl⟩ : ∃ f', f = f' + 1 := ⟨f - 1, by omega⟩
  cases rest with
  | nil => simp [parse_term_go]
  | cons op r =>
    have hop1 : op ≠ "*" := by simpa using h1
    have hop2 : op ≠ "/" := by simpa using h2
    simp [parse_term_go, hop1, hop2]

/-- The plus-minus loop returns its accumulator at once when the next
token is neither plus nor minus. -/
theorem expr_go_exit (B : Builtins) (F : Funcs) (q : ℚ) (v : Vars) (rest : List String)
    (h1 : rest.head? ≠ some "+") (h2 : rest.head? ≠ some "-") :
    Computes (fun f => eval_expr_go B F f q ⟨rest, v⟩) (.ok (q, ⟨rest, v⟩)) := by
  refine ⟨1, fun f hf => ?_⟩
  obtain ⟨f', rfl⟩ : ∃ f', f = f' + 1 := ⟨f - 1, by omega⟩
  cases rest with
  | nil => simp [eval_expr_go]
  | cons op r =>
    have hop1 : op ≠ "+" := by simpa using h1
    have hop2 : op ≠ "-" := by simpa using h2
    simp [eval_expr_go, hop1, hop2]

/-- Induction step for the factor level: a number token resolves
through the float fallback; a parenthesized sub-expression whose inner
head token is not an opening parenthesis takes the parenthesis branch,
recurses into the full expression and consumes the matching closer. -/
theorem evalSim_factor (B : Builtins) (F : Funcs) (v : Vars) (e : Exp)
    (ih : ∀ a, esz a < esz e → EvalSim B F v a) : FactorStmt B F v e := by
  intro q rest hS hN hl hd hc
  have hc' : rest.head? ≠ some "(" := hc
  cases e with
  | num s =>
    have hsq : parseFloat s = some q := hd
    have hlk : lookupVars v s = none := hN.2
    have hsp : s ≠ "(" := parseFloat_ne_lparen s (by simp [hsq])
    refine ⟨1, fun f hf => ?_⟩
    obtain ⟨f', rfl⟩ : ∃ f', f = f' + 1 := ⟨f - 1, by omega⟩
    simp [flat, parse_factor, hc', hsp, hlk, hsq]
  | paren e1 =>
    obtain ⟨hS1, hhd⟩ := hS
    obtain ⟨t, ht⟩ := flat_cons e1
    have hExpr : ExprStmt B F v e1 := (ih e1 (by simp [esz])).2.2.2.2.2.2
    obtain ⟨f1, h1⟩ := hExpr q (")" :: rest) hS1 hN hd (by
      simp [ExprCont, TermCont, ExpoCont, FactorCont])
    refine ⟨f1 + 1, fun f hf => ?_⟩
    obtain ⟨f', rfl⟩ : ∃ f', f = f' + 1 := ⟨f - 1, by omega⟩
    have hfl : flat (Exp.paren e1) ++ rest = "(" :: (flat e1 ++ ")" :: rest) := by
      simp [flat]
    have hh : (flat e1 ++ ")" :: rest).head? = some (headTok e1) := by
      rw [ht]; rfl
    rw [hfl]
    simp only [parse_factor]
    rw [hh]
    have h1' : eval_expr B F f' ⟨flat e1 ++ ")" :: rest, v⟩ =
        .ok (q, ⟨")" :: rest, v⟩) := h1 f' (by omega)
    rw [if_neg (by simp [hhd]), if_pos trivial, h1']
    simp
  | add a b => simp [lvl] at hl
  | sub a b => simp [lvl] at hl
  | mul a b => simp [lvl] at hl
  | div a b => simp [lvl] at hl
  | pow a b => simp [lvl] at hl

/-- Induction step for the caret loop over the exponent spine. -/
theorem evalSim_xchain (B : Builtins) (F : Funcs) (v : Vars) (e : Exp)
    (ih : ∀ a, esz a < esz e → EvalSim B F v a) : XChainStmt B F v e := by
  intro w u rest R hS hN hfold hc hcont
  cases e with
  | pow a b =>
    simp only [xFold] at hfold
    cases h1 : xFold w a with
    | none => rw [h1] at hfold; cases h2 : denote b <;> rw [h2] at hfold <;> simp at hfold
    | some x =>
      cases h2 : denote b with
      | none => rw [h1, h2] at hfold; simp at hfold
      | some y =>
        rw [h1, h2] at hfold
        simp at hfold
        obtain ⟨hSa, hSb, hla, hlb⟩ := hS
        obtain ⟨hNa, hNb⟩ := hN
        have hXa : XChainStmt B F v a := (ih a (by simp only [esz]; omega)).2.1
        have hFb : FactorStmt B F v b := (ih b (by simp only [esz]; omega)).1
        obtain ⟨f1, h1f⟩ := hFb y rest hSb hNb hlb h2 hc
        obtain ⟨f2, h2f⟩ := hcont
        have hstep : Computes
            (fun f => parse_exponent_go B F f x ⟨"^" :: (flat b ++ rest), v⟩) R := by
          refine ⟨f1 + f2 + 1, fun f hf => ?_⟩
          obtain ⟨f', rfl⟩ : ∃ f', f = f' + 1 := ⟨f - 1, by omega⟩
          have h1' : parse_factor B F f' ⟨flat b ++ rest, v⟩ = .ok (y, ⟨rest, v⟩) :=
            h1f f' (by omega)
          have h2' : parse_exponent_go B F f' u ⟨rest, v⟩ = R := h2f f' (by omega)
          simp [parse_exponent_go, h1', hfold, h2']
        have hres := hXa w x ("^" :: (flat b ++ rest)) R hSa hNa h1
          (by simp [FactorCont]) hstep
        have hxo : xOps (Exp.pow a b) ++ rest = xOps a ++ "^" :: (flat b ++ rest) := by
          simp [xOps]
        rw [hxo]
        exact hres
  | num s =>
    simp only [xFold, Option.some.injEq] at hfold
    subst hfold
    simpa [xOps] using hcont
  | paren e1 =>
    simp only [xFold, Option.some.injEq] at hfold
    subst hfold
    simpa [xOps] using hcont
  | add a b =>
    simp only [xFold, Option.some.injEq] at hfold
    subst hfold
    simpa [xOps] using hcont
  | sub a b =>
    simp only [xFold, Option.some.injEq] at hfold
    subst hfold
    simpa [xOps] using hcont
  | mul a b =>
    simp only [xFold, Option.some.injEq] at hfold
    subst hfold
    simpa [xOps] using hcont
  | div a b =>
    simp only [xFold, Option.some.injEq] at hfold
    subst hfold
    simpa [xOps] using hcont

/-- Induction step for parse_exponent: read the factor at the exponent
base, then run the caret loop over the spine. -/
theorem evalSim_expo (B : Builtins) (F : Funcs) (v : Vars) (e : Exp)
    (hxb : FactorStmt B F v (xBase e)) (hX : XChainStmt B F v e) :
    ExpoStmt B F v e := by
  intro q rest hS hN hl hd hc
  have hdx := denote_xFold e
  rw [hd] at hdx
  cases hw : denote (xBase e) with
  | none => rw [hw] at hdx; simp at hdx
  | some w =>
    rw [hw] at hdx
    simp at hdx
    have hlx : 3 ≤ lvl (xBase e) := lvl_xBase e hS hl
    have hcx : FactorCont (xOps e ++ rest).head? := by
      rcases xOps_shape e with h | ⟨t, ht⟩
      · simpa [h] using hc.1
      · simp [ht, FactorCont]
    obtain ⟨f1, h1⟩ := hxb w (xOps e ++ rest) (Struct_xBase e hS) (NumsOK_xBase v e hN)
      hlx hw hcx
    have hexit := expo_go_exit B F q v rest hc.2
    obtain ⟨f2, h2⟩ := hX w q rest (.ok (q, ⟨rest, v⟩)) hS hN hdx.symm hc.1 hexit
    refine ⟨f1 + f2 + 1, fun f hf => ?_⟩
    obtain ⟨f', rfl⟩ : ∃ f', f = f' + 1 := ⟨f - 1, by omega⟩
    have h1' : parse_factor B F f' ⟨flat (xBase e) ++ (xOps e ++ rest), v⟩ =
        .ok (w, ⟨xOps e ++ rest, v⟩) := h1 f' (by omega)
    have h2' : parse_exponent_go B F f' w ⟨xOps e ++ rest, v⟩ =
        .ok (q, ⟨rest, v⟩) := h2 f' (by omega)
    have hfl : flat e ++ rest = flat (xBase e) ++ (xOps e ++ rest) := by
      conv_lhs => rw [flat_xBase e]
      simp
    rw [hfl]
    simp [parse_exponent, h1', h2']

/-- Induction step for the star-slash loop over the multiplicative
spine; a division checks its right operand against zero before
dividing, and the fold hypothesis supplies its non-vanishing. -/
theorem evalSim_tchain (B : Builtins) (F : Funcs) (v : Vars) (e : Exp)
    (ih : ∀ a, esz a < esz e → EvalSim B F v a) : TChainStmt B F v e := by
  intro w u rest R hS hN hfold hc hcont
  cases e with
  | mul a b =>
    simp only [tFold] at hfold
    cases h1 : tFold w a with
    | none => rw [h1] at hfold; cases h2 : denote b <;> rw [h2] at hfold <;> simp at hfold
    | some x =>
      cases h2 : denote b with
      | none => rw [h1, h2] at hfold; simp at hfold
      | some y =>
        rw [h1, h2] at hfold
        simp at hfold
        obtain ⟨hSa, hSb, hla, hlb⟩ := hS
        obtain ⟨hNa, hNb⟩ := hN
        have hTa : TChainStmt B F v a := (ih a (by simp only [esz]; omega)).2.2.2.1
        have hEb : ExpoStmt B F v b := (ih b (by simp only [esz]; omega)).2.2.1
        obtain ⟨f1, h1f⟩ := hEb y rest hSb hNb hlb h2 hc
        obtain ⟨f2, h2f⟩ := hcont
        have hstep : Computes
            (fun f => parse_term_go B F f x ⟨"*" :: (flat b ++ rest), v⟩) R := by
          refine ⟨f1 + f2 + 1, fun f hf => ?_⟩
          obtain ⟨f', rfl⟩ : ∃ f', f = f' + 1 := ⟨f - 1, by omega⟩
          have h1' : parse_exponent B F f' ⟨flat b ++ rest, v⟩ = .ok (y, ⟨rest, v⟩) :=
            h1f f' (by omega)
          have h2' : parse_term_go B F f' u ⟨rest, v⟩ = R := h2f f' (by omega)
          simp [parse_term_go, h1', hfold, h2']
        have hres := hTa w x ("*" :: (flat b ++ rest)) R hSa hNa h1
          (by simp [ExpoCont, FactorCont]) hstep
        have hto : tOps (Exp.mul a b) ++ rest = tOps a ++ "*" :: (flat b ++ rest) := by
          simp [tOps]
        rw [hto]
        exact hres
  | div a b =>
    simp only [tFold] at hfold
    cases h1 : tFold w a with
    | none => rw [h1] at hfold; cases h2 : denote b <;> rw [h2] at hfold <;> simp at hfold
    | some x =>
      cases h2 : denote b with
      | none => rw [h1, h2] at hfold; simp at hfold
      | some y =>
        rw [h1, h2] at hfold
        by_cases hy : y = 0
        · simp [hy] at hfold
        · simp [hy] at hfold
          obtain ⟨hSa, hSb, hla, hlb⟩ := hS
          obtain ⟨hNa, hNb⟩ := hN
          have hTa : TChainStmt B F v a := (ih a (by simp only [esz]; omega)).2.2.2.1
          have hEb : ExpoStmt B F v b := (ih b (by simp only [esz]; omega)).2.2.1
          obtain ⟨f1, h1f⟩ := hEb y rest hSb hNb hlb h2 hc
          obtain ⟨f2, h2f⟩ := hcont
          have hstep : Computes
              (fun f => parse_term_go B F f x ⟨"/" :: (flat b ++ rest), v⟩) R := by
            refine ⟨f1 + f2 + 1, fun f hf => ?_⟩
            obtain ⟨f', rfl⟩ : ∃ f', f = f' + 1 := ⟨f - 1, by omega⟩
            have h1' : parse_exponent B F f' ⟨flat b ++ rest, v⟩ = .ok (y, ⟨rest, v⟩) :=
              h1f f' (by omega)
            have h2' : parse_term_go B F f' u ⟨rest, v⟩ = R := h2f f' (by omega)
            simp [parse_term_go, h1', hy, hfold, h2']
          have hres := hTa w x ("/" :: (flat b ++ rest)) R hSa hNa h1
            (by simp [ExpoCont, FactorCont]) hstep
          have hto : tOps (Exp.div a b) ++ rest = tOps a ++ "/" :: (flat b ++ rest) := by
            simp [tOps]
          rw [hto]
          exact hres
  | num s =>
    simp only [tFold, Option.some.injEq] at hfold
    subst hfold
    simpa [tOps] using hcont
  | paren e1 =>
    simp only [tFold, Option.some.injEq] at hfold
    subst hfold
    simpa [tOps] using hcont
  | add a b =>
    simp only [tFold, Option.some.injEq] at hfold
    subst hfold
    simpa [tOps] using hcont
  | sub a b =>
    simp only [tFold, Option.some.injEq] at hfold
    subst hfold
    simpa [tOps] using hcont
  | pow a b =>
    simp only [tFold, Option.some.injEq] at hfold
    subst hfold
    simpa [tOps] using hcont

/-- Induction step for parse_term: read the exponent chain at the
multiplicative base, then run the star-slash loop over the spine. -/
theorem evalSim_term (B : Builtins) (F : Funcs) (v : Vars) (e : Exp)
    (htb : ExpoStmt B F v (tBase e)) (hT : TChainStmt B F v e) :
    TermStmt B F v e := by
  intro q rest hS hN hl hd hc
  have hdt := denote_tFold e
  rw [hd] at hdt
  cases hw : denote (tBase e) with
  | none => rw [hw] at hdt; simp at hdt
  | some w =>
    rw [hw] at hdt
    simp at hdt
    have hlt : 2 ≤ lvl (tBase e) := lvl_tBase e hS hl
    have hct : ExpoCont (tOps e ++ rest).head? := by
      rcases tOps_shape e with h | ⟨op, t, ht, hop⟩
      · simpa [h] using hc.1
      · rcases hop with rfl | rfl <;> simp [ht, ExpoCont, FactorCont]
    obtain ⟨f1, h1⟩ := htb w (tOps e ++ rest) (Struct_tBase e hS) (NumsOK_tBase v e hN)
      hlt hw hct
    have hexit := term_go_exit B F q v rest hc.2.1 hc.2.2
    obtain ⟨f2, h2⟩ := hT w q rest (.ok (q, ⟨rest, v⟩)) hS hN hdt.symm hc.1 hexit
    refine ⟨f1 + f2 + 1, fun f hf => ?_⟩
    obtain ⟨f', rfl⟩ : ∃ f', f = f' + 1 := ⟨f - 1, by omega⟩
    have h1' : parse_exponent B F f' ⟨flat (tBase e) ++ (tOps e ++ rest), v⟩ =
        .ok (w, ⟨tOps e ++ rest, v⟩) := h1 f' (by omega)
    have h2' : parse_term_go B F f' w ⟨tOps e ++ rest, v⟩ =
        .ok (q, ⟨rest, v⟩) := h2 f' (by omega)
    have hfl : flat e ++ rest = flat (tBase e) ++ (tOps e ++ rest) := by
      conv_lhs => rw [flat_tBase e]
      simp
    rw [hfl]
    simp [parse_term, h1', h2']

/-- Induction step for the plus-minus loop over the additive spine. -/
theorem evalSim_echain (B : Builtins) (F : Funcs) (v : Vars) (e : Exp)
    (ih : ∀ a, esz a < esz e → EvalSim B F v a) : EChainStmt B F v e := by
  intro w u rest R hS hN hfold hc hcont
  cases e with
  | add a b =>
    simp only [eFold] at hfold
    cases h1 : eFold w a with
    | none => rw [h1] at hfold; cases h2 : denote b <;> rw [h2] at hfold <;> simp at hfold
    | some x =>
      cases h2 : denote b with
      | none => rw [h1, h2] at hfold; simp at hfold
      | some y =>
        rw [h1, h2] at hfold
        simp at hfold
        obtain ⟨hSa, hSb, hlb⟩ := hS
        obtain ⟨hNa, hNb⟩ := hN
        have hEa : EChainStmt B F v a := (ih a (by simp only [esz]; omega)).2.2.2.2.2.1
        have hTb : TermStmt B F v b := (ih b (by simp only [esz]; omega)).2.2.2.2.1
        obtain ⟨f1, h1f⟩ := hTb y rest hSb hNb hlb h2 hc
        obtain ⟨f2, h2f⟩ := hcont
        have hstep : Computes
            (fun f => eval_expr_go B F f x ⟨"+" :: (flat b ++ rest), v⟩) R := by
          refine ⟨f1 + f2 + 1, fun f hf => ?_⟩
          obtain ⟨f', rfl⟩ : ∃ f', f = f' + 1 := ⟨f - 1, by omega⟩
          have h1' : parse_term B F f' ⟨flat b ++ rest, v⟩ = .ok (y, ⟨rest, v⟩) :=
            h1f f' (by omega)
          have h2' : eval_expr_go B F f' u ⟨rest, v⟩ = R := h2f f' (by omega)
          simp [eval_expr_go, h1', hfold, h2']
        have hres := hEa w x ("+" :: (flat b ++ rest)) R hSa hNa h1
          (by simp [TermCont, ExpoCont, FactorCont]) hstep
        have heo : eOps (Exp.add a b) ++ rest = eOps a ++ "+" :: (flat b ++ rest) := by
          simp [eOps]
        rw [heo]
        exact hres
  | sub a b =>
    simp only [eFold] at hfold
    cases h1 : eFold w a with
    | none => rw [h1] at hfold; cases h2 : denote b <;> rw [h2] at hfold <;> simp at hfold
    | some x =>
      cases h2 : denote b with
      | none => rw [h1, h2] at hfold; simp at hfold
      | some y =>
        rw [h1, h2] at hfold
        simp at hfold
        obtain ⟨hSa, hSb, hlb⟩ := hS
        obtain ⟨hNa, hNb⟩ := hN
        have hEa : EChainStmt B F v a := (ih a (by simp only [esz]; omega)).2.2.2.2.2.1
        have hTb : TermStmt B F v b := (ih b (by simp only [esz]; omega)).2.2.2.2.1
        obtain ⟨f1, h1f⟩ := hTb y rest hSb hNb hlb h2 hc
        obtain ⟨f2, h2f⟩ := hcont
        have hstep : Computes
            (fun f => eval_expr_go B F f x ⟨"-" :: (flat b ++ rest), v⟩) R := by
          refine ⟨f1 + f2 + 1, fun f hf => ?_⟩
          obtain ⟨f', rfl⟩ : ∃ f', f = f' + 1 := ⟨f - 1, by omega⟩
          have h1' : parse_term B F f' ⟨flat b ++ rest, v⟩ = .ok (y, ⟨rest, v⟩) :=
            h1f f' (by omega)
          have h2' : eval_expr_go B F f' u ⟨rest, v⟩ = R := h2f f' (by omega)
          simp [eval_expr_go, h1', hfold, h2']
        have hres := hEa w x ("-" :: (flat b ++ rest)) R hSa hNa h1
          (by simp [TermCont, ExpoCont, FactorCont]) hstep
        have heo : eOps (Exp.sub a b) ++ rest = eOps a ++ "-" :: (flat b ++ rest) := by
          simp [eOps]
        rw [heo]
        exact hres
  | num s =>
    simp only [eFold, Option.some.injEq] at hfold
    subst hfold
    simpa [eOps] using hcont
  | paren e1 =>
    simp only [eFold, Option.some.injEq] at hfold
    subst hfold
    simpa [eOps] using hcont
  | mul a b =>
    simp only [eFold, Option.some.injEq] at hfold
    subst hfold
    simpa [eOps] using hcont
  | div a b =>
    simp only [eFold, Option.some.injEq] at hfold
    subst hfold
    simpa [eOps] using hcont
  | pow a b =>
    simp only [eFold, Option.some.injEq] at hfold
    subst hfold
    simpa [eOps] using hcont

/-- Induction step for eval_expr: read the term chain at the additive
base, then run the plus-minus loop over the spine. -/
theorem evalSim_expr (B : Builtins) (F : Funcs) (v : Vars) (e : Exp)
    (heb : TermStmt B F v (eBase e)) (hE : EChainStmt B F v e) :
    ExprStmt B F v e := by
  intro q rest hS hN hd hc
  have hde := denote_eFold e
  rw [hd] at hde
  cases hw : denote (eBase e) with
  | none => rw [hw] at hde; simp at hde
  | some w =>
    rw [hw] at hde
    simp at hde
    have hle : 1 ≤ lvl (eBase e) := lvl_eBase e hS
    have hce : TermCont (eOps e ++ rest).head? := by
      rcases eOps_shape e with h | ⟨op, t, ht, hop⟩
      · simpa [h] using hc.1
      · rcases hop with rfl | rfl <;> simp [ht, TermCont, ExpoCont, FactorCont]
    obtain ⟨f1, h1⟩ := heb w (eOps e ++ rest) (Struct_eBase e hS) (NumsOK_eBase v e hN)
      hle hw hce
    have hexit := expr_go_exit B F q v rest hc.2.1 hc.2.2
    obtain ⟨f2, h2⟩ := hE w q rest (.ok (q, ⟨rest, v⟩)) hS hN hde.symm hc.1 hexit
    refine ⟨f1 + f2 + 1, fun f hf => ?_⟩
    obtain ⟨f', rfl⟩ : ∃ f', f = f' + 1 := ⟨f - 1, by omega⟩
    have h1' : parse_term B F f' ⟨flat (eBase e) ++ (eOps e ++ rest), v⟩ =
        .ok (w, ⟨eOps e ++ rest, v⟩) := h1 f' (by omega)
    have h2' : eval_expr_go B F f' w ⟨eOps e ++ rest, v⟩ =
        .ok (q, ⟨rest, v⟩) := h2 f' (by omega)
    have hfl : flat e ++ rest = flat (eBase e) ++ (eOps e ++ rest) := by
      conv_lhs => rw [flat_eBase e]
      simp
    rw [hfl]
    simp [eval_expr, h1', h2']

/-- The full simulation bundle, by strong induction on the size of the
expression. -/
theorem evalSim_all (B : Builtins) (F : Funcs) (v : Vars) :
    ∀ n e, esz e ≤ n → EvalSim B F v e := by
  intro n
  induction n with
  | zero =>
    intro e he
    exfalso
    cases e <;> simp [esz] at he
  | succ n ihn =>
    intro e he
    have hszlt : ∀ a, esz a < esz e → esz a ≤ n := fun a ha => by omega
    have ih : ∀ a, esz a < esz e → EvalSim B F v a := fun a ha => ihn a (hszlt a ha)
    have hF : FactorStmt B F v e := evalSim_factor B F v e ih
    have hX : XChainStmt B F v e := evalSim_xchain B F v e ih
    have hxb : FactorStmt B F v (xBase e) := by
      cases e with
      | pow a b =>
        have hlt : esz (xBase (Exp.pow a b)) < esz (Exp.pow a b) := by
          have := esz_xBase_le a
          simp only [xBase, esz]
          omega
        exact (ih _ hlt).1
      | num s => exact hF
      | paren e1 => exact hF
      | add a b => exact hF
      | sub a b => exact hF
      | mul a b => exact hF
      | div a b => exact hF
    have hXp : ExpoStmt B F v e := evalSim_expo B F v e hxb hX
    have hT : TChainStmt B F v e := evalSim_tchain B F v e ih
    have htb : ExpoStmt B F v (tBase e) := by
      cases e with
      | mul a b =>
        have hlt : esz (tBase (Exp.mul a b)) < esz (Exp.mul a b) := by
          have := esz_tBase_le a
          simp only [tBase, esz]
          omega
        exact (ih _ hlt).2.2.1
      | div a b =>
        have hlt : esz (tBase (Exp.div a b)) < esz (Exp.div a b) := by
          have := esz_tBase_le a
          simp only [tBase, esz]
          omega
        exact (ih _ hlt).2.2.1
      | num s => exact hXp
      | paren e1 => exact hXp
      | add a b => exact hXp
      | sub a b => exact hXp
      | pow a b => exact hXp
    have hTm : TermStmt B F v e := evalSim_term B F v e htb hT
    have hEc : EChainStmt B F v e := evalSim_echain B F v e ih
    have heb : TermStmt B F v (eBase e) := by
      cases e with
      | add a b =>
        have hlt : esz (eBase (Exp.add a b)) < esz (Exp.add a b) := by
          have := esz_eBase_le a
          simp only [eBase, esz]
          omega
        exact (ih _ hlt).2.2.2.2.1
      | sub a b =>
        have hlt : esz (eBase (Exp.sub a b)) < esz (Exp.sub a b) := by
          have := esz_eBase_le a
          simp only [eBase, esz]
          omega
        exact (ih _ hlt).2.2.2.2.1
      | num s => exact hTm
      | paren e1 => exact hTm
      | mul a b => exact hTm
      | div a b => exact hTm
      | pow a b => exact hTm
    have hEx : ExprStmt B F v e := evalSim_expr B F v e heb hEc
    exact ⟨hF, hX, hXp, hT, hTm, hEc, hEx⟩

/-- Helper for claim C2: on the one-character input dollar, every
iteration of the tokenize loop re-examines index zero after appending
an empty token, so no amount of fuel completes the scan. -/
theorem tokenizeLoop_dollar_stuck :
    ∀ fuel acc, tokenizeLoop ['$'] fuel 0 acc = none := by
  intro fuel
  induction fuel with
  | zero => intro acc; rfl
  | succ f ih =>
    intro acc
    have hscan : scanEnd ['$'] 0 = 0 := by decide
    rw [tokenizeLoop]
    simp +decide [hscan]
    exact ih _

/-- C2: the tokenizer does not terminate on every input: a character
that is neither punctuation, nor whitespace, nor alphanumeric-or-dot
(here the dollar sign) makes the scan loop forever, appending empty
tokens without advancing, so no token sequence is ever produced. -/
theorem tokenize_dollar_diverges :
    (∀ fuel, tokenize fuel "$" = none) ∧
      pyPunct '$' = false ∧ pyIsSpace '$' = false ∧ pyAlnumDot '$' = false := by
  refine ⟨fun fuel => ?_, by decide, by decide, by decide⟩
  have h : ("$" : String).data = ['$'] := rfl
  rw [tokenize, h]
  exact tokenizeLoop_dollar_stuck fuel []

/-- C10: applying eval_expr to a token sequence exhausted where a
factor is required (the empty sequence, or the tokens of the text
2-plus) makes parse_factor pop from an empty list: the outcome is the
IndexError model, not a ValueError of the recoverable taxonomy, for
every gateway, registry, environment and sufficient fuel. -/
theorem eval_expr_exhausted_index_error (B : Builtins) (F : Funcs) (f : Nat) (v : Vars) :
    eval_expr B F (f + 5) ⟨[], v⟩ = .error (.index, ⟨[], v⟩) ∧
      eval_expr B F (f + 5) ⟨["2", "+"], v⟩ = .error (.index, ⟨[], v⟩) := by
  constructor
  · simp [eval_expr, parse_term, parse_exponent, parse_factor]
  · cases h : lookupVars v "2" with
    | some q =>
      simp +decide [eval_expr, parse_term, parse_exponent, parse_factor,
        eval_expr_go, parse_term_go, parse_exponent_go, h]
    | none =>
      simp +decide [eval_expr, parse_term, parse_exponent, parse_factor,
        eval_expr_go, parse_term_go, parse_exponent_go, h, parseFloat_digits.2.2.1]

/-- C4 fails on the code: the parser accepts a header whose bracket
list is empty and whose parameter list repeats a name, and registers a
FunctionDefinition with an empty output list and colliding parameters. -/
theorem parse_def_accepts_empty_outputs_dup_params :
    parse_function_definition ["[] = def f(x, x)", "end"] =
        .ok ("f", ⟨["x", "x"], [], []⟩) ∧
      ¬ (["x", "x"] : List String).Nodup := by
  exact ⟨rfl, by decide⟩

/-- C4 amended: what the registered definitions do satisfy is that
every stored parameter name and every stored output name is a nonempty
string (blank entries are discarded); the output list may be empty and
parameter names may repeat. -/
theorem parse_def_entries_nonblank (lines : List String) (name : String)
    (df : FunctionDef) (h : parse_function_definition lines = .ok (name, df)) :
    (∀ s ∈ df.args, s ≠ "") ∧ (∀ s ∈ df.outputs, s ≠ "") := by
  cases lines with
  | nil => simp [parse_function_definition] at h
  | cons l0 rest =>
    simp only [parse_function_definition] at h
    repeat' split at h
    any_goals simp at h
    obtain ⟨-, h2⟩ := h
    subst h2
    refine ⟨?_, ?_⟩ <;> (intro s hs; simp [List.mem_filter] at hs; exact hs.2)

/-- Witness for the amended C4, at the square definition block. -/
theorem parse_def_entries_nonblank_witness :
    (∀ s ∈ (FunctionDef.mk ["x"] ["y"] ["y = x^2"]).args, s ≠ "") ∧
      (∀ s ∈ (FunctionDef.mk ["x"] ["y"] ["y = x^2"]).outputs, s ≠ "") :=
  parse_def_entries_nonblank ["[y] = def square(x)", "y = x^2", "end"] "square"
    ⟨["x"], ["y"], ["y = x^2"]⟩ rfl

/-- C6 fails on the code: the bracket-y equals-def header with no space
after the equals sign is rejected, because the source tests for the
five-character literal equals-space-d-e-f, so the spacing between the
equals sign and def is not arbitrary. -/
theorem parse_def_rejects_eqdef_without_space :
    parse_function_definition ["[y] =def f(x)", "end"] =
      .error (.value "Invalid function definition header: [y] =def f(x)") := rfl

/-- C6 amended: a header line whose stripped text does not contain the
literal character sequence equals-space-d-e-f is always rejected as a
malformed header; with the single space present the same header is
accepted. -/
theorem parse_def_needs_literal_eq_space_def :
    (∀ hd tl, hasSubStr (pyStrip hd) "= def" = false →
      parse_function_definition (hd :: tl) =
        .error (.value ("Invalid function definition header: " ++ pyStrip hd))) ∧
    parse_function_definition ["[y] = def f(x)", "end"] = .ok ("f", ⟨["x"], ["y"], []⟩) := by
  constructor
  · intro hd tl h
    simp [parse_function_definition, h]
  · rfl

/-- Witness for the amended C6: the header of the C6 example lacks the
literal sequence, so the parser rejects it. -/
theorem parse_def_needs_literal_eq_space_def_witness :
    parse_function_definition ["[y] =def g()", "end"] =
      .error (.value ("Invalid function definition header: " ++ pyStrip "[y] =def g()")) :=
  parse_def_needs_literal_eq_space_def.1 "[y] =def g()" ["end"] (by decide)

/-- C1 is the stated intent but the code violates it: run_function_call
snapshots and restores the environment only on the all-statements-
succeed path; when a body statement fails (here a division by zero)
the error propagates with the transient call environment still
installed, so the caller's variables are lost.  The success path, by
contrast, does restore the snapshot. -/
theorem run_function_call_no_restore_on_error :
    run_function_call noBuiltins regDiv 20 "f" [] [("x", 7)] =
        .error (.value "Division by zero", []) ∧
      ([] : Vars) ≠ [("x", 7)] ∧
      run_function_call noBuiltins regSquare 20 "square" [5] [("x", 7)] =
        .ok ([25], [("x", 7)]) := by
  refine ⟨?_, by decide, ?_⟩ <;>
    simp +decide [run_function_call, run_body, eval_expr, parse_term, parse_exponent,
      parse_factor, eval_expr_go, parse_term_go, parse_exponent_go, lookupVars, setVar,
      lookupFn, bindPairs, tokenize, tokenizeLoop, scanEnd, parseFloat, pypow,
      noBuiltins, regDiv, regSquare, splitOnceList, startsWithList, pyStripList,
      pyIsSpace, pyPunct, pyAlnumDot] <;> norm_num

/-- C9: whenever the left operand of parse_term's loop has been read,
the next token is the division sign, and the right operand evaluates to
exactly zero, the division fails with the division-by-zero ValueError
raised at the state reached after the right operand: the comparison
with zero happens before any division, so no quotient is produced. -/
theorem division_by_zero_checked_first (B : Builtins) (F : Funcs) (f : Nat)
    (st st1 st2 : St) (v : ℚ) (r : List String)
    (h1 : parse_exponent B F (f + 1) st = .ok (v, st1))
    (h2 : st1.toks = "/" :: r)
    (h3 : parse_exponent B F f ⟨r, st1.vars⟩ = .ok (0, st2)) :
    parse_term B F (f + 2) st = .error (.value "Division by zero", st2) := by
  simp +decide [parse_term, parse_term_go, h1, h2, h3]

/-- Witness for C9: the tokens of five-slash-zero always fail. -/
theorem division_by_zero_checked_first_witness :
    parse_term noBuiltins [] 7 ⟨["5", "/", "0"], []⟩ =
      .error (.value "Division by zero", ⟨[], []⟩) := by
  refine division_by_zero_checked_first noBuiltins [] 5 _ ⟨["/", "0"], []⟩ _ 5 ["0"] ?_ rfl ?_ <;>
    simp +decide [parse_exponent, parse_factor, parse_exponent_go, lookupVars, parseFloat]

/-- C5 fails on the code: a call whose closing position holds a token
other than the closing parenthesis does not fail; the source pops the
closing token without comparing it, so the token two of sin-paren-one-
two is silently consumed as the closer and the call returns a value. -/
theorem call_close_token_not_checked :
    tokenize 20 "sin(1 2" = some ["sin", "(", "1", "2"] ∧
      eval_expr gwSin [] 20 ⟨["sin", "(", "1", "2"], []⟩ = .ok (101, ⟨[], []⟩) := by
  refine ⟨by decide, ?_⟩
  simp +decide [eval_expr, parse_term, parse_exponent, parse_factor, eval_expr_go,
    parse_term_go, parse_exponent_go, parse_call_args, lookupVars, parseFloat, gwSin]
    <;> norm_num

/-- C5 amended: exhausting the tokens inside a call argument list fails
with the unclosed-parenthesis error; a parenthesized sub-expression
whose closing position is exhausted or holds a non-closing token fails
with the expected-closing-parenthesis error; but a call whose closing
position holds a non-closing token consumes it silently and returns a
value. -/
theorem unclosed_paren_failures :
    eval_expr gwSin [] 20 ⟨["sin", "(", "1"], []⟩ =
        .error (.value "Unclosed parenthesis", ⟨[], []⟩) ∧
      eval_expr noBuiltins [] 20 ⟨["(", "1"], []⟩ =
        .error (.value "Expected closing parenthesis", ⟨[], []⟩) ∧
      eval_expr noBuiltins [] 20 ⟨["(", "1", "2"], []⟩ =
        .error (.value "Expected closing parenthesis", ⟨[], []⟩) ∧
      eval_expr gwSin [] 20 ⟨["sin", "(", "1", "2"], []⟩ = .ok (101, ⟨[], []⟩) := by
  refine ⟨?_, ?_, ?_, ?_⟩ <;>
    simp +decide [eval_expr, parse_term, parse_exponent, parse_factor, eval_expr_go,
      parse_term_go, parse_exponent_go, parse_call_args, lookupVars, parseFloat, gwSin,
      noBuiltins] <;> norm_num

set_option maxHeartbeats 1600000 in
/-- C7 fails on the code: arguments are evaluated before the popped
name is looked up anywhere, so a failing argument aborts the call with
the argument's own error, not with the unknown-function error, although
the name foo is bound nowhere; and when the failing argument is itself
a user-function call, the propagated failure leaves the transient call
environment installed, so the ambient environment after the failure
differs from the one before it. -/
theorem unknown_function_checked_after_args :
    eval_expr noBuiltins [] 20 ⟨["foo", "(", "1", "/", "0", ")"], [("a", 5)]⟩ =
        .error (.value "Division by zero", ⟨[")"], [("a", 5)]⟩) ∧
      eval_expr noBuiltins regGFail 20 ⟨["foo", "(", "g", "(", "1", ")", ")"], [("a", 5)]⟩ =
        .error (.value "Division by zero", ⟨[")"], [("x", 1)]⟩) := by
  refine ⟨?_, ?_⟩ <;>
    simp +decide [eval_expr, parse_term, parse_exponent, parse_factor, eval_expr_go,
      parse_term_go, parse_exponent_go, parse_call_args, run_function_call, run_body,
      lookupVars, setVar, lookupFn, bindPairs, tokenize, tokenizeLoop, scanEnd,
      parseFloat, noBuiltins, regGFail, splitOnceList, startsWithList, pyStripList,
      pyIsSpace, pyPunct, pyAlnumDot] <;> norm_num

/-- C7 amended: when every argument of the call evaluates without
error and without net effect on the environment (literal arguments, as
in foo of one and two), the call to an identifier bound neither in the
gateway nor in the registry fails with the unknown-function error and
the environment at the failure equals the environment before the
call. -/
theorem unknown_function_literal_args (B : Builtins) (F : Funcs) (v : Vars) (f : Nat)
    (hB : B "foo" = none) (hF : lookupFn F "foo" = none) :
    eval_expr B F (f + 15) ⟨["foo", "(", "1", ",", "2", ")"], v⟩ =
      .error (.value "Unknown function: foo", ⟨[], v⟩) := by
  cases h1 : lookupVars v "1" <;> cases h2 : lookupVars v "2" <;>
    simp +decide [eval_expr, parse_term, parse_exponent, parse_factor, eval_expr_go,
      parse_term_go, parse_exponent_go, parse_call_args, h1, h2, hB, hF,
      parseFloat_digits.2.1, parseFloat_digits.2.2.1]

/-- Witness for the amended C7. -/
theorem unknown_function_literal_args_witness :
    eval_expr noBuiltins [] 15 ⟨["foo", "(", "1", ",", "2", ")"], [("a", 5)]⟩ =
      .error (.value "Unknown function: foo", ⟨[], [("a", 5)]⟩) :=
  unknown_function_literal_args noBuiltins [] [("a", 5)] 0 rfl rfl

set_option maxHeartbeats 1600000 in
/-- C3 fails on the code for immediately nested parentheses: after
popping the first token, the source checks whether the next token is an
opening parenthesis before checking the popped token itself, so the
tokens of doubly-parenthesized two enter the call branch with the
opening parenthesis as the function name and fail as an unknown
function instead of evaluating to two. -/
theorem nested_parens_misparsed_as_call :
    tokenize 20 "((2))" = some ["(", "(", "2", ")", ")"] ∧
      eval_expr noBuiltins [] 9 ⟨["(", "(", "2", ")", ")"], []⟩ =
        .error (.value "Unknown function: (", ⟨[")"], []⟩) := by
  refine ⟨by decide, ?_⟩
  simp +decide [eval_expr, parse_term, parse_exponent, parse_factor, eval_expr_go,
    parse_term_go, parse_exponent_go, parse_call_args, lookupVars, lookupFn,
    parseFloat_digits.2.2.1, noBuiltins]

/-- C8: resolution order for an identifier followed by an opening
parenthesis (here with an empty argument list): the built-in gateway is
consulted first — even when the registry also binds the name, so a
built-in always shadows a user-defined function — and its scalar result
is returned, a native failure being wrapped into an error naming the
function; otherwise a registry hit runs the Function Engine and the
first declared output (zero when the definition declares none, via
headD) is returned and engine failures propagate; otherwise the call
fails as an unknown function. -/
theorem call_resolution_order (B : Builtins) (F : Funcs) (name : String)
    (rest : List String) (v : Vars) (f : Nat) :
    (∀ bf, B name = some bf →
      parse_factor B F (f + 1) ⟨name :: "(" :: ")" :: rest, v⟩ =
        match bf [] with
        | .ok val => .ok (val, ⟨rest, v⟩)
        | .error msg =>
          .error (.value ("Error in builtin function " ++ name ++ ": " ++ msg),
            ⟨rest, v⟩)) ∧
    (B name = none → ∀ fd, lookupFn F name = some fd →
      parse_factor B F (f + 1) ⟨name :: "(" :: ")" :: rest, v⟩ =
        match run_function_call B F f name [] v with
        | .ok (res, v2) => .ok (res.headD 0, ⟨rest, v2⟩)
        | .error (e, v2) => .error (e, ⟨rest, v2⟩)) ∧
    (B name = none → lookupFn F name = none →
      parse_factor B F (f + 1) ⟨name :: "(" :: ")" :: rest, v⟩ =
        .error (.value ("Unknown function: " ++ name), ⟨rest, v⟩)) := by
  refine ⟨fun bf hB => ?_, fun hB fd hF => ?_, fun hB hF => ?_⟩ <;>
    simp +decide [parse_factor, hB] <;>
    simp +decide [hF]

/-- Witness for C8: the name b is bound in both tables and resolves to
the native callable; the name u is bound only in the registry and runs
through the Function Engine; the name z is bound nowhere. -/
theorem call_resolution_order_witness :
    parse_factor gwConst regPair 6 ⟨["b", "(", ")"], []⟩ = .ok (42, ⟨[], []⟩) ∧
      parse_factor gwConst regPair 6 ⟨["u", "(", ")"], []⟩ =
        (match run_function_call gwConst regPair 5 "u" [] [] with
          | .ok (res, v2) => .ok (res.headD 0, ⟨[], v2⟩)
          | .error (e, v2) => .error (e, ⟨[], v2⟩)) ∧
      parse_factor gwConst regPair 6 ⟨["z", "(", ")"], []⟩ =
        .error (.value "Unknown function: z", ⟨[], []⟩) :=
  ⟨(call_resolution_order gwConst regPair "b" [] [] 5).1 _ rfl,
    (call_resolution_order gwConst regPair "u" [] [] 5).2.1 rfl ⟨[], [], []⟩ rfl,
    (call_resolution_order gwConst regPair "z" [] [] 5).2.2 rfl rfl⟩

/-- C3 amended: for every well-formed call-free arithmetic expression
in which no opening parenthesis is immediately followed by another
(Struct), whose literals parse as numbers and are unshadowed (NumsOK),
and whose standard left-to-right precedence-respecting denotation is
defined (denote), eval_expr on its token string returns exactly that
denotation, for any gateway, registry and environment; and the three
examples of the claim hold: two-plus-three-times-four is fourteen, the
parenthesized variant is twenty, and the double caret associates to the
left, giving sixty-four. -/
theorem eval_expr_standard_arithmetic :
    (∀ (B : Builtins) (F : Funcs) (v : Vars) (e : Exp) (q : ℚ),
      Struct e → NumsOK v e → denote e = some q →
      ∃ f0, ∀ f, f0 ≤ f → eval_expr B F f ⟨flat e, v⟩ = .ok (q, ⟨[], v⟩)) ∧
    tokenize 20 "2+3*4" = some ["2", "+", "3", "*", "4"] ∧
    eval_expr noBuiltins [] 20 ⟨["2", "+", "3", "*", "4"], []⟩ = .ok (14, ⟨[], []⟩) ∧
    tokenize 20 "(2+3)*4" = some ["(", "2", "+", "3", ")", "*", "4"] ∧
    eval_expr noBuiltins [] 20 ⟨["(", "2", "+", "3", ")", "*", "4"], []⟩ =
      .ok (20, ⟨[], []⟩) ∧
    tokenize 20 "2^3^2" = some ["2", "^", "3", "^", "2"] ∧
    eval_expr noBuiltins [] 20 ⟨["2", "^", "3", "^", "2"], []⟩ = .ok (64, ⟨[], []⟩) := by
  refine ⟨?_, by decide, ?_, by decide, ?_, by decide, ?_⟩
  · intro B F v e q hS hN hd
    have hEx := (evalSim_all B F v (esz e) e le_rfl).2.2.2.2.2.2
    obtain ⟨f0, h0⟩ := hEx q [] hS hN hd
      (by simp [ExprCont, TermCont, ExpoCont, FactorCont])
    exact ⟨f0, fun f hf => by simpa using h0 f hf⟩
  · simp +decide [eval_expr, parse_term, parse_exponent, parse_factor, eval_expr_go,
      parse_term_go, parse_exponent_go, lookupVars, parseFloat, pypow, noBuiltins]
      <;> norm_num
  · simp +decide [eval_expr, parse_term, parse_exponent, parse_factor, eval_expr_go,
      parse_term_go, parse_exponent_go, lookupVars, parseFloat, pypow, noBuiltins]
      <;> norm_num
  · simp +decide [eval_expr, parse_term, parse_exponent, parse_factor, eval_expr_go,
      parse_term_go, parse_exponent_go, lookupVars, parseFloat, pypow, noBuiltins]
      <;> norm_num

/-- Witness for the amended C3, at the expression of the first
example. -/
theorem eval_expr_standard_arithmetic_witness :
    ∃ f0, ∀ f, f0 ≤ f →
      eval_expr noBuiltins [] f
          ⟨flat (Exp.add (.num "2") (.mul (.num "3") (.num "4"))), []⟩ =
        .ok (14, ⟨[], []⟩) :=
  eval_expr_standard_arithmetic.1 noBuiltins [] []
    (Exp.add (.num "2") (.mul (.num "3") (.num "4"))) 14
    (by simp [Struct, lvl])
    (by
      refine ⟨⟨?_, rfl⟩, ⟨?_, rfl⟩, ⟨?_, rfl⟩⟩ <;> decide)
    (by
      simp [denote, parseFloat_digits.2.2.1, parseFloat_digits.2.2.2.1,
        parseFloat_digits.2.2.2.2.1]
      norm_num)

end NONScript
